import Mathlib

/-!
Verification of the agenticty/agentflow repository against its
natural-language specification.

The repository ships the Next.js frontend; the FastAPI orchestrator
(Quality Gate, Template Engine, Run Controller, Event Publisher) is not
part of the source tree, so those components are modelled from the spec
(each such definition says so in its doc comment).  The frontend
components present in the source (RunModal, StepBuilder,
CreateWorkflowForm) are embedded directly from the TypeScript.
-/

namespace AgentFlow

/-- Agent kinds, from `components/workflows/types.ts`:
`export type AgentKind = "research" | "qualify" | "outreach"`. -/
inductive AgentKind where
  | research
  | qualify
  | outreach
deriving DecidableEq, Repr

/-- A workflow step, from `components/workflows/types.ts`
(`Step = { id, agent, instructions, input_map }`); `input_map` is an
opaque JSON map never inspected by the code the claims touch, so it is
kept as an association list of strings. -/
structure Step where
  id : String
  agent : AgentKind
  instructions : String
  input_map : List (String × String)
deriving DecidableEq, Repr

/-- `StepBuilder.addStep` (StepBuilder.tsx): refuses when
`steps.length >= 10`, otherwise appends the freshly created step
(the fresh step, whose id comes from `crypto.randomUUID()`, is a
parameter here). -/
def addStep (steps : List Step) (fresh : Step) : List Step :=
  if steps.length ≥ 10 then steps else steps ++ [fresh]

/-- `StepBuilder.remove` (StepBuilder.tsx):
`steps.filter(s => s.id !== id)`. -/
def removeStep (steps : List Step) (sid : String) : List Step :=
  steps.filter (fun s => ¬(s.id = sid))

/-- `StepBuilder.move` (StepBuilder.tsx): find the step by id
(`findIndex`), bail out when absent or when the target index `i + dir`
falls off either end, otherwise `splice` the step out of position `i`
and back in at position `j` (an adjacent swap, since `dir ∈ {-1, 1}`). -/
def move (steps : List Step) (sid : String) (dir : Int) : List Step :=
  match steps.findIdx? (fun s => s.id = sid) with
  | Option.none => steps
  | Option.some i =>
    let j : Int := (i : Int) + dir
    if j < 0 ∨ (steps.length : Int) ≤ j then steps
    else
      match steps.get? i with
      | Option.none => steps
      | Option.some item => (steps.eraseIdx i).insertIdx j.toNat item

/-- `StepBuilder.update` (StepBuilder.tsx):
`steps.map(s => s.id === id ? { ...s, ...patch } : s)`; the patch is an
arbitrary rewrite of a matching step that keeps its identity as a list
entry. -/
def updateStep (steps : List Step) (sid : String) (patch : Step → Step) :
    List Step :=
  steps.map (fun s => if s.id = sid then patch s else s)

/-- Input-schema field, from RunModal's `InputField` type
(`{ name, label, type?, placeholder?, required? }`); the optional
`type` is kept as an `Option`, an absent `required` flag is `false`. -/
structure InputField where
  name : String
  label : String
  ftype : Option String
  required : Bool
deriving DecidableEq, Repr

/-- JS `String.prototype.trim`: strip whitespace from both ends
(written over the character list so that it evaluates inside the
kernel). -/
def jsTrim (s : String) : String :=
  String.mk
    (((s.data.dropWhile Char.isWhitespace).reverse.dropWhile
        Char.isWhitespace).reverse)

/-- JS `String.prototype.toLowerCase` over the character list. -/
def jsLower (s : String) : String :=
  String.mk (s.data.map Char.toLower)

/-- JS `String.prototype.slice(0, n)` over the character list. -/
def jsTake (s : String) (n : Nat) : String :=
  String.mk (s.data.take n)

/-- JS `values[name]?.trim()` with a falsy test downstream: a missing
key behaves like the empty string. -/
def trimVal (values : List (String × String)) (n : String) : String :=
  jsTrim ((values.lookup n).getD "")

/-- The placeholder company names RunModal rejects
(`['test', 'example', 'acme', 'company', 'corp', 'inc']`). -/
def placeholderNames : List String :=
  ["test", "example", "acme", "company", "corp", "inc"]

/-- A character admitted by the `[^\s@]` class in RunModal's
`emailRegex`. -/
def emailChar (c : Char) : Bool :=
  ¬c.isWhitespace ∧ ¬(c = '@')

/-- RunModal's `emailRegex = /^[^\s@]+@[^\s@]+\.[^\s@]+$/` as a
decidable matcher: some position `i` holds the `@`, some later
position `j` holds the dot demanded by `\.`, and the three segments
around them are nonempty runs of `[^\s@]` characters. -/
def emailRegexTest (s : String) : Bool :=
  let cs := s.toList
  (List.range cs.length).any fun i =>
    (List.range cs.length).any fun j =>
      decide (0 < i) ∧ decide (i + 1 < j) ∧ decide (j + 1 < cs.length) ∧
      cs.get? i = Option.some '@' ∧ cs.get? j = Option.some '.' ∧
      (cs.take i).all emailChar ∧
      ((cs.drop (i + 1)).take (j - (i + 1))).all emailChar ∧
      (cs.drop (j + 1)).all emailChar

/-- One iteration of RunModal `start`'s required-field loop: the blank
check, then the three company sanity checks (these re-read the
`company` value on every iteration, exactly as the source does), then
the email-format check for email-typed fields. -/
def fieldError (values : List (String × String)) (f : InputField) :
    Option String :=
  let val := trimVal values f.name
  if val = "" then Option.some (f.label ++ " is required")
  else
    let company := trimVal values "company"
    if ¬(company = "") ∧ company.length < 3 then
      Option.some "Company name too short - please enter full company name"
    else if ¬(company = "") ∧ placeholderNames.contains (jsLower company) then
      Option.some "Please enter a real company name (not a placeholder)"
    else if ¬(company = "") ∧ ¬(company.toList.any Char.isAlpha) then
      Option.some "Company name should contain letters"
    else if f.ftype = Option.some "email" ∧ ¬(val = "") ∧
        ¬emailRegexTest val then
      Option.some (f.label ++ " must be a valid email")
    else Option.none

/-- RunModal `start`'s `for (const field of requiredFields)` loop with
its early returns: the first error wins. -/
def firstFieldError (values : List (String × String)) :
    List InputField → Option String
  | [] => Option.none
  | f :: rest =>
    match fieldError values f with
    | Option.some e => Option.some e
    | Option.none => firstFieldError values rest

/-- The validation run by RunModal `start` before any request is sent:
the unconditional `if (!values.lead_email?.trim())` guard first, then
the loop over `schema.filter(f => f.required)`. -/
def startValidate (schema : List InputField)
    (values : List (String × String)) : Option String :=
  if trimVal values "lead_email" = "" then
    Option.some "Contact email is required"
  else firstFieldError values (schema.filter (fun f => f.required))

/-- Outcome of RunModal `start`: either a validation error shown in
the form (no network request, so no run is created and no events are
emitted), or the `POST /api/workflow-runs` body
`{ workflow_id, inputs }`. -/
inductive StartOutcome where
  | rejected (msg : String)
  | requested (workflowId : String) (inputs : List (String × String))
deriving DecidableEq, Repr

/-- RunModal `start` up to the point the request is issued. -/
def start (workflowId : String) (schema : List InputField)
    (values : List (String × String)) : StartOutcome :=
  match startValidate schema values with
  | Option.some e => StartOutcome.rejected e
  | Option.none => StartOutcome.requested workflowId values

/-- CreateWorkflowForm's hard-coded `defaultSchema`. -/
def defaultSchema : List InputField :=
  [⟨"company", "Company name", Option.some "text", true⟩,
   ⟨"website", "Company website", Option.some "url", false⟩,
   ⟨"lead_email", "Contact email", Option.some "email", true⟩]

/-- The `POST /api/workflows` body built by CreateWorkflowForm
`submit` (name, steps, and the attached `defaultSchema`). -/
structure CreatePayload where
  name : String
  steps : List Step
  input_schema : List InputField
deriving DecidableEq, Repr

/-- CreateWorkflowForm `submit`'s per-step check:
`if (!step.instructions?.trim()) throw` with the 1-based position in
the message. -/
def instrCheck : List Step → Nat → Option String
  | [], _ => Option.none
  | s :: rest, i =>
    if jsTrim s.instructions = "" then
      Option.some ("Step " ++ toString (i + 1) ++ " needs instructions")
    else instrCheck rest (i + 1)

/-- CreateWorkflowForm `submit` up to the point the create request is
issued: zero steps throw `"Add at least one step"`, a step with blank
instructions throws, otherwise the payload is sent. -/
def submit (name : String) (steps : List Step) :
    Except String CreatePayload :=
  if steps.length = 0 then Except.error "Add at least one step"
  else
    match instrCheck steps 0 with
    | Option.some e => Except.error e
    | Option.none => Except.ok ⟨name, steps, defaultSchema⟩

/-- The step-list editing operations StepBuilder exposes; every state
the form can submit is reached from the initial list by a sequence of
these. -/
inductive BuilderOp where
  | add (fresh : Step)
  | remove (sid : String)
  | moveStep (sid : String) (dir : Int)
  | update (sid : String) (patch : Step → Step)

/-- Apply one StepBuilder operation. -/
def applyOp (steps : List Step) : BuilderOp → List Step
  | BuilderOp.add fresh => addStep steps fresh
  | BuilderOp.remove sid => removeStep steps sid
  | BuilderOp.moveStep sid dir => move steps sid dir
  | BuilderOp.update sid patch => updateStep steps sid patch

/-- Apply a sequence of StepBuilder operations. -/
def applyOps (steps : List Step) : List BuilderOp → List Step
  | [] => steps
  | op :: rest => applyOps (applyOp steps op) rest

/-! ## The orchestrator, modelled from the spec

The FastAPI backend that implements the Run Orchestrator is not part
of this source tree (the frontend only consumes its REST and SSE
interfaces), so the components below are modelled from the spec's
component design (§4) and data model (§3). -/

/-- Modelled from the spec: the configured thresholds supplied by
`GetOrgThresholds()` (§6) — minimum confidence, minimum
credible-source count, minimum qualification score. -/
structure Thresholds where
  minConfidence : Nat
  minCredibleSources : Nat
  minQualifyScore : Nat
deriving DecidableEq, Repr

/-- Modelled from the spec: `qualityTier ∈ {high, good, medium, low,
insufficient}` (§3). -/
inductive QualityTier where
  | high
  | good
  | medium
  | low
  | insufficient
deriving DecidableEq, Repr

/-- Modelled from the spec: the **QualityScore** structured metadata a
research step reports (§3). -/
structure QualityScore where
  confidence : Nat
  qualityTier : QualityTier
  totalCredibleSources : Nat
  totalSourcesChecked : Nat
  tier1SourceCount : Nat
deriving DecidableEq, Repr

/-- Modelled from the spec: `decision ∈ {yes, no, maybe}` (§3). -/
inductive QDecision where
  | yes
  | no
  | maybe
deriving DecidableEq, Repr

/-- Modelled from the spec: the **QualificationDecision** structured
metadata a qualify step reports (§3). -/
structure QualificationDecision where
  score : Nat
  decision : QDecision
  confidence : String
  criteriaMatched : Nat
  totalCriteria : Nat
  reasons : List String
deriving DecidableEq, Repr

/-- Modelled from the spec: the two stop reasons the Quality Gate can
return (§4.2). -/
inductive StopReason where
  | insufficient_evidence
  | disqualified
deriving DecidableEq, Repr

/-- Modelled from the spec: the Quality Gate's verdict, `continue` or
`stop(reason, ...)` (§4.2); the free-text detail and recommendation
carried with a stop are not constrained by any claim and are elided. -/
inductive GateResult where
  | cont
  | stop (reason : StopReason)
deriving DecidableEq, Repr

/-- Modelled from the spec: the optional structured metadata returned
by the Agent Gateway alongside the step's text (§2, §9: absence is
meaningful and must be representable). -/
inductive Metadata where
  | research (q : QualityScore)
  | qualifyMeta (d : QualificationDecision)
  | noMeta
deriving DecidableEq, Repr

/-- Modelled from the spec: the Quality Gate decision policy (§4.2).
After a research step, stop with `insufficient_evidence` when
`confidence < minConfidence` OR `totalCredibleSources <
minCredibleSources`; after a qualify step, stop with `disqualified`
when `decision == no`, or `decision == maybe` with `score <
minQualifyScore`; otherwise (including outreach steps, which carry no
metadata) continue. -/
def qualityGate (th : Thresholds) : Metadata → GateResult
  | Metadata.research q =>
    if q.confidence < th.minConfidence ∨
        q.totalCredibleSources < th.minCredibleSources then
      GateResult.stop StopReason.insufficient_evidence
    else GateResult.cont
  | Metadata.qualifyMeta d =>
    match d.decision with
    | QDecision.no => GateResult.stop StopReason.disqualified
    | QDecision.maybe =>
      if d.score < th.minQualifyScore then
        GateResult.stop StopReason.disqualified
      else GateResult.cont
    | QDecision.yes => GateResult.cont
  | Metadata.noMeta => GateResult.cont

/-- Modelled from the spec: a template is a sequence of literal
segments and `\x7b\x7binput.name\x7d\x7d` placeholder references
(§4.1 gives only the resolution contract, not a lexical grammar). -/
inductive TemplatePart where
  | lit (s : String)
  | var (name : String)
deriving DecidableEq, Repr

/-- Modelled from the spec: the Template Engine's
`resolve(template, inputs)` (§4.1) — a pure, deterministic function
that fails with `MissingVariable(name)` (the error value is the
missing variable's name) when a referenced placeholder has no entry in
`inputs` and the workflow marks that field required (`req`), and
renders an unresolved optional variable as the empty string. -/
def resolve (req : String → Bool) (inputs : List (String × String)) :
    List TemplatePart → Except String String
  | [] => Except.ok ""
  | TemplatePart.lit s :: rest =>
    (resolve req inputs rest).map (fun r => s ++ r)
  | TemplatePart.var n :: rest =>
    match inputs.lookup n with
    | Option.some v => (resolve req inputs rest).map (fun r => v ++ r)
    | Option.none =>
      if req n then Except.error n
      else (resolve req inputs rest).map (fun r => "" ++ r)

/-- Modelled from the spec: the Agent Gateway's reply,
`{text, metadata?}` (§6). -/
structure AgentOutput where
  text : String
  metadata : Metadata
deriving DecidableEq, Repr

/-- Modelled from the spec: what the Run Controller needs of a step —
its agent kind and its instruction template (§3). -/
structure StepDef where
  agent : AgentKind
  template : List TemplatePart
deriving DecidableEq, Repr

/-- Modelled from the spec: run status (§3). -/
inductive RunStatus where
  | pending
  | running
  | success
  | stopped_low_quality
  | disqualified
  | error
deriving DecidableEq, Repr

/-- Modelled from the spec: the event types of §6, one constructor per
row of the table (payloads as structured data per §9). -/
inductive Event where
  | started (workflow : String)
  | stepStart (index : Nat) (agent : AgentKind)
  | stepOutput (index : Nat) (agent : AgentKind) (preview full : String)
  | stepEnd (index : Nat)
  | researchQuality (q : QualityScore)
  | qualifyAssessed (d : QualificationDecision)
  | finished (status : RunStatus) (reason : Option StopReason)
  | error (message : String)
deriving DecidableEq, Repr

/-- Modelled from the spec: the terminal status mapped from a gate
stop — `stopped_low_quality` for evidence stops, `disqualified` for
qualification stops (§4.3). -/
def stopStatus : StopReason → RunStatus
  | StopReason.insufficient_evidence => RunStatus.stopped_low_quality
  | StopReason.disqualified => RunStatus.disqualified

/-- Modelled from the spec: the assessment event emitted when a step's
metadata is structured — `research:quality` or `qualify:assessed`
(§4.3); none when the agent kind carries no metadata. -/
def metaEvent : Metadata → List Event
  | Metadata.research q => [Event.researchQuality q]
  | Metadata.qualifyMeta d => [Event.qualifyAssessed d]
  | Metadata.noMeta => []

/-- Modelled from the spec: the Run Controller's step loop (§4.3),
over the remaining steps, with `i` the current step index and `gw`
the Agent Gateway (indexed by step, returning text plus metadata, or a
failure message).  Per step: emit `step:start`, resolve the template
(a `MissingVariable` failure becomes run status `error` with a
descriptive message and no step output, §7), invoke the gateway (a
failure becomes run status `error`), emit `step:output` (bounded
preview plus full text), emit the assessment event and consult the
Quality Gate; a stop sets the mapped terminal status and emits
`finished` with the reason, a continue emits `step:end` and advances.
All steps done: status `success`, `finished` with no reason. -/
def runLoop (th : Thresholds) (req : String → Bool)
    (inputs : List (String × String))
    (gw : Nat → Except String AgentOutput) :
    Nat → List StepDef → RunStatus × List Event
  | _, [] => (RunStatus.success,
      [Event.finished RunStatus.success Option.none])
  | i, s :: rest =>
    match resolve req inputs s.template with
    | Except.error n =>
      (RunStatus.error,
       [Event.stepStart i s.agent,
        Event.error ("Missing variable: " ++ n)])
    | Except.ok _instructions =>
      match gw i with
      | Except.error msg =>
        (RunStatus.error, [Event.stepStart i s.agent, Event.error msg])
      | Except.ok out =>
        let base := Event.stepStart i s.agent ::
          Event.stepOutput i s.agent (jsTake out.text 180) out.text ::
          metaEvent out.metadata
        match qualityGate th out.metadata with
        | GateResult.stop r =>
          (stopStatus r,
           base ++ [Event.finished (stopStatus r) (Option.some r)])
        | GateResult.cont =>
          let next := runLoop th req inputs gw (i + 1) rest
          (next.1, base ++ Event.stepEnd i :: next.2)

/-- Modelled from the spec: a whole run — emit `started` on creation,
then drive the step loop from index 0 (§4.3). -/
def runWorkflow (th : Thresholds) (req : String → Bool)
    (inputs : List (String × String))
    (gw : Nat → Except String AgentOutput) (wfName : String)
    (steps : List StepDef) : RunStatus × List Event :=
  let r := runLoop th req inputs gw 0 steps
  (r.1, Event.started wfName :: r.2)

/-- Modelled from the spec: the Event Publisher's per-run log (§4.4) —
an append-only list; the sequence number of an event is its position. -/
structure RunLog where
  events : List Event
deriving DecidableEq, Repr

/-- Modelled from the spec: `append(runId, event) → sequence` (§4.4) —
assigns the next sequence number for the run and stores the event. -/
def appendEvent (log : RunLog) (e : Event) : RunLog × Nat :=
  (⟨log.events ++ [e]⟩, log.events.length)

/-- Modelled from the spec: the replay half of
`subscribe(runId, fromSequence)` (§4.4) — all stored events with
`sequence ≥ fromSequence`, in order, paired with their sequence
numbers. -/
def replayFrom (log : RunLog) (fromSeq : Nat) : List (Nat × Event) :=
  log.events.enum.filter (fun p => fromSeq ≤ p.1)

/-- Modelled from the spec: the live half of a subscription — each
event of `es` is appended in turn and delivered to the attached
subscriber with its assigned sequence number (§4.4). -/
def liveDelivery (log : RunLog) : List Event → List (Nat × Event)
  | [] => []
  | e :: rest =>
    ((appendEvent log e).2, e) :: liveDelivery (appendEvent log e).1 rest

/-- Modelled from the spec: the Run Controller appending a run's whole
event list to the publisher, in order (§4.3/§4.4). -/
def publishAll (log : RunLog) : List Event → RunLog
  | [] => log
  | e :: rest => publishAll (appendEvent log e).1 rest

/-- The empty per-run log a run starts from. -/
def emptyLog : RunLog := ⟨[]⟩

/-! ## Proofs -/

/-- If dropping `k` elements exposes `a :: b :: t`, splicing `a` out of
position `k` and back in at `k + 1` swaps the adjacent pair. -/
lemma eraseInsertRight_of_drop {α : Type _} :
    ∀ (k : Nat) (l : List α) (a b : α) (t : List α), l.drop k = a :: b :: t →
      (l.eraseIdx k).insertIdx (k + 1) a = l.take k ++ b :: a :: t := by
  intro k
  induction k with
  | zero =>
    intro l a b t h
    rw [List.drop_zero] at h
    subst h
    simp [List.insertIdx_succ_cons, List.insertIdx_zero]
  | succ k ih =>
    intro l a b t h
    rcases l with _ | ⟨x, l'⟩
    · simp at h
    · have h' : l'.drop k = a :: b :: t := h
      have := ih l' a b t h'
      simpa [List.insertIdx_succ_cons] using congrArg (List.cons x) this

/-- If dropping `k` elements exposes `a :: b :: t`, splicing `b` out of
position `k + 1` and back in at `k` swaps the adjacent pair. -/
lemma eraseInsertLeft_of_drop {α : Type _} :
    ∀ (k : Nat) (l : List α) (a b : α) (t : List α), l.drop k = a :: b :: t →
      (l.eraseIdx (k + 1)).insertIdx k b = l.take k ++ b :: a :: t := by
  intro k
  induction k with
  | zero =>
    intro l a b t h
    rw [List.drop_zero] at h
    subst h
    simp [List.insertIdx_zero]
  | succ k ih =>
    intro l a b t h
    rcases l with _ | ⟨x, l'⟩
    · simp at h
    · have h' : l'.drop k = a :: b :: t := h
      have := ih l' a b t h'
      simpa [List.insertIdx_succ_cons] using congrArg (List.cons x) this

/-- A list is its first `k` elements followed by whatever `drop k`
exposes. -/
lemma decomp_of_drop {α : Type _} (k : Nat) (l : List α) (s : List α)
    (h : l.drop k = s) : l = l.take k ++ s := by
  subst h
  rw [List.take_append_drop]

/-- The element at the drop position, through `get?`. -/
lemma get?_of_drop {α : Type _} :
    ∀ (k : Nat) (l : List α) (a : α) (t : List α), l.drop k = a :: t →
      l.get? k = Option.some a := by
  intro k
  induction k with
  | zero =>
    intro l a t h
    rw [List.drop_zero] at h
    subst h
    rfl
  | succ k ih =>
    intro l a t h
    rcases l with _ | ⟨x, l'⟩
    · simp at h
    · exact ih l' a t h

/-- The element one past the drop position, through `get?`. -/
lemma get?_succ_of_drop {α : Type _} (k : Nat) (l : List α) (a b : α)
    (t : List α) (h : l.drop k = a :: b :: t) :
    l.get? (k + 1) = Option.some b := by
  apply get?_of_drop (k + 1) l b t
  have : l.drop (k + 1) = (l.drop k).drop 1 := by
    rw [List.drop_drop]
  rw [this, h]
  rfl

/-- Dropping `k` and seeing two elements bounds the length. -/
lemma len_of_drop {α : Type _} (k : Nat) (l : List α) (a b : α)
    (t : List α) (h : l.drop k = a :: b :: t) : k + 1 < l.length := by
  have hlen := congrArg List.length h
  rw [List.length_drop] at hlen
  simp only [List.length_cons] at hlen
  omega

/-- The adjacent swap is a permutation of the original list. -/
lemma swap_of_drop_perm {α : Type _} (k : Nat) (l : List α) (a b : α)
    (t : List α) (h : l.drop k = a :: b :: t) :
    (l.take k ++ b :: a :: t).Perm l := by
  conv_rhs => rw [decomp_of_drop k l (a :: b :: t) h]
  exact List.Perm.append_left _ (List.Perm.swap a b t)

lemma findIdxLt {steps : List Step} {sid : String} {i : Nat}
    (h : steps.findIdx? (fun s => s.id = sid) = Option.some i) :
    i < steps.length :=
  (List.findIdx?_eq_some_iff_findIdx_eq.mp h).1

lemma move_none (steps : List Step) (sid : String) (dir : Int)
    (h : steps.findIdx? (fun s => s.id = sid) = Option.none) :
    move steps sid dir = steps := by
  simp [move, h]

lemma move_right (steps : List Step) (sid : String) (i : Nat)
    (a b : Step) (t : List Step)
    (h : steps.findIdx? (fun s => s.id = sid) = Option.some i)
    (hdrop : steps.drop i = a :: b :: t) :
    move steps sid 1 = steps.take i ++ b :: a :: t := by
  have hlt : i + 1 < steps.length := len_of_drop i steps a b t hdrop
  have hget : steps.get? i = Option.some a := get?_of_drop i steps a (b :: t) hdrop
  have hcond : ¬(((i : Int) + 1) < 0 ∨ ((steps.length : Int)) ≤ ((i : Int) + 1)) := by
    push_neg
    omega
  simp only [move, h, hget]
  rw [if_neg hcond]
  have htn : ((i : Int) + 1).toNat = i + 1 := by omega
  rw [htn]
  exact eraseInsertRight_of_drop i steps a b t hdrop

lemma move_left (steps : List Step) (sid : String) (k : Nat)
    (a b : Step) (t : List Step)
    (h : steps.findIdx? (fun s => s.id = sid) = Option.some (k + 1))
    (hdrop : steps.drop k = a :: b :: t) :
    move steps sid (-1) = steps.take k ++ b :: a :: t := by
  have hlt : k + 1 < steps.length := len_of_drop k steps a b t hdrop
  have hget : steps.get? (k + 1) = Option.some b :=
    get?_succ_of_drop k steps a b t hdrop
  have hcond :
      ¬((((k + 1 : Nat) : Int) + (-1)) < 0 ∨
        ((steps.length : Int)) ≤ (((k + 1 : Nat) : Int) + (-1))) := by
    push_neg
    omega
  simp only [move, h, hget]
  rw [if_neg hcond]
  have htn : (((k + 1 : Nat) : Int) + (-1)).toNat = k := by omega
  rw [htn]
  exact eraseInsertLeft_of_drop k steps a b t hdrop

lemma move_cross_left (steps : List Step) (sid : String)
    (h : steps.findIdx? (fun s => s.id = sid) = Option.some 0) :
    move steps sid (-1) = steps := by
  simp only [move, h]
  rw [if_pos]
  left
  omega

lemma move_cross_right (steps : List Step) (sid : String) (i : Nat)
    (h : steps.findIdx? (fun s => s.id = sid) = Option.some i)
    (hend : i + 1 = steps.length) :
    move steps sid 1 = steps := by
  simp only [move, h]
  rw [if_pos]
  right
  omega

/-- `move` never changes the number of steps, whatever the direction. -/
lemma move_length (steps : List Step) (sid : String) (dir : Int) :
    (move steps sid dir).length = steps.length := by
  rcases hfind : steps.findIdx? (fun s => s.id = sid) with _ | i
  · rw [move_none steps sid dir hfind]
  · have hi : i < steps.length := findIdxLt hfind
    simp only [move, hfind]
    by_cases hcond : ((i : Int) + dir) < 0 ∨ ((steps.length : Int)) ≤ ((i : Int) + dir)
    · rw [if_pos hcond]
    · rw [if_neg hcond]
      rcases hget : steps.get? i with _ | item
      · rfl
      · have hjn : ((i : Int) + dir).toNat ≤ steps.length - 1 := by omega
        have herase : (steps.eraseIdx i).length + 1 = steps.length :=
          List.length_eraseIdx_add_one hi
        rw [List.length_insertIdx _ _ (by omega)]
        omega

/-- `move` permutes the list whenever the direction is one of the two
the UI can produce. -/
lemma move_perm (steps : List Step) (sid : String) (dir : Int)
    (hdir : dir = -1 ∨ dir = 1) : (move steps sid dir).Perm steps := by
  rcases hfind : steps.findIdx? (fun s => s.id = sid) with _ | i
  · rw [move_none steps sid dir hfind]
  · have hi : i < steps.length := findIdxLt hfind
    rcases hdir with hdir | hdir
    · subst hdir
      rcases i with _ | k
      · rw [move_cross_left steps sid hfind]
      · rcases hd : steps.drop k with _ | ⟨a, _ | ⟨b, t⟩⟩
        · have := congrArg List.length hd
          rw [List.length_drop] at this
          simp at this
          omega
        · have := congrArg List.length hd
          rw [List.length_drop] at this
          simp at this
          omega
        · rw [move_left steps sid k a b t hfind hd]
          exact swap_of_drop_perm k steps a b t hd
    · subst hdir
      by_cases hend : i + 1 = steps.length
      · rw [move_cross_right steps sid i hfind hend]
      · rcases hd : steps.drop i with _ | ⟨a, _ | ⟨b, t⟩⟩
        · have := congrArg List.length hd
          rw [List.length_drop] at this
          simp at this
          omega
        · have := congrArg List.length hd
          rw [List.length_drop] at this
          simp at this
          omega
        · rw [move_right steps sid i a b t hfind hd]
          exact swap_of_drop_perm i steps a b t hd

/-- C10: StepBuilder's `move(id, dir)` permutes the list (same step
objects, none added, removed or duplicated), acts as the identity when
the id is absent or the move would cross either end, and otherwise
performs exactly the one adjacent swap, preserving every other step's
relative order. -/
theorem stepBuilder_move_spec (steps : List Step) (sid : String) (dir : Int) :
    ((dir = -1 ∨ dir = 1) → (move steps sid dir).Perm steps)
    ∧ ((∀ s ∈ steps, ¬s.id = sid) → move steps sid dir = steps)
    ∧ (steps.findIdx? (fun s => s.id = sid) = Option.some 0 →
        move steps sid (-1) = steps)
    ∧ (∀ i, steps.findIdx? (fun s => s.id = sid) = Option.some i →
        i + 1 = steps.length → move steps sid 1 = steps)
    ∧ (∀ i a b t, steps.findIdx? (fun s => s.id = sid) = Option.some i →
        steps.drop i = a :: b :: t →
        move steps sid 1 = steps.take i ++ b :: a :: t)
    ∧ (∀ k a b t, steps.findIdx? (fun s => s.id = sid) = Option.some (k + 1) →
        steps.drop k = a :: b :: t →
        move steps sid (-1) = steps.take k ++ b :: a :: t) := by
  refine ⟨fun hdir => move_perm steps sid dir hdir, fun habs => ?_,
    fun h0 => move_cross_left steps sid h0,
    fun i hf he => move_cross_right steps sid i hf he,
    fun i a b t hf hd => move_right steps sid i a b t hf hd,
    fun k a b t hf hd => move_left steps sid k a b t hf hd⟩
  apply move_none
  rw [List.findIdx?_eq_none_iff]
  intro s hs
  simpa using habs s hs

theorem stepBuilder_move_spec_witness :
    move [(⟨"a", AgentKind.research, "r", []⟩ : Step),
          ⟨"b", AgentKind.qualify, "q", []⟩,
          ⟨"c", AgentKind.outreach, "o", []⟩] "a" 1 =
      [⟨"b", AgentKind.qualify, "q", []⟩,
       ⟨"a", AgentKind.research, "r", []⟩,
       ⟨"c", AgentKind.outreach, "o", []⟩]
    ∧ move [(⟨"a", AgentKind.research, "r", []⟩ : Step),
            ⟨"b", AgentKind.qualify, "q", []⟩] "z" 1 =
      [⟨"a", AgentKind.research, "r", []⟩, ⟨"b", AgentKind.qualify, "q", []⟩]
    ∧ move [(⟨"a", AgentKind.research, "r", []⟩ : Step),
            ⟨"b", AgentKind.qualify, "q", []⟩] "b" (-1) =
      [⟨"b", AgentKind.qualify, "q", []⟩, ⟨"a", AgentKind.research, "r", []⟩] := by
  refine ⟨?_, ?_, ?_⟩
  · exact (stepBuilder_move_spec _ "a" 1).2.2.2.2.1 0 _ _ _ (by decide) rfl
  · exact (stepBuilder_move_spec _ "z" 1).2.1 (by decide)
  · exact (stepBuilder_move_spec _ "b" (-1)).2.2.2.2.2 0 _ _ _ (by decide) rfl

lemma applyOp_length_le (steps : List Step) (op : BuilderOp)
    (h : steps.length ≤ 10) : (applyOp steps op).length ≤ 10 := by
  cases op with
  | add fresh =>
    simp only [applyOp, addStep]
    by_cases hlen : steps.length ≥ 10
    · rw [if_pos hlen]
      exact h
    · rw [if_neg hlen]
      simp only [List.length_append, List.length_cons, List.length_nil]
      omega
  | remove sid =>
    simp only [applyOp, removeStep]
    exact le_trans (List.length_filter_le _ _) h
  | moveStep sid dir =>
    simp only [applyOp]
    rw [move_length]
    exact h
  | update sid patch =>
    simp only [applyOp, updateStep]
    rw [List.length_map]
    exact h

lemma applyOps_length_le (steps : List Step) (ops : List BuilderOp)
    (h : steps.length ≤ 10) : (applyOps steps ops).length ≤ 10 := by
  induction ops generalizing steps with
  | nil => exact h
  | cons op rest ih => exact ih (applyOp steps op) (applyOp_length_le steps op h)

/-- C8: a workflow accepted for creation has between 1 and 10 steps:
`addStep` refuses to grow a 10-step list, `submit` rejects an empty
step list with "Add at least one step" before any create request is
sent, and any step list reachable from a list of at most 10 steps by
StepBuilder operations that `submit` accepts has length in `1..10`. -/
theorem workflow_step_count_bounds :
    (∀ (steps : List Step) (fresh : Step), steps.length = 10 →
        addStep steps fresh = steps)
    ∧ (∀ name, submit name [] = Except.error "Add at least one step")
    ∧ (∀ (s0 : List Step) (ops : List BuilderOp) (name : String)
        (p : CreatePayload), s0.length ≤ 10 →
        submit name (applyOps s0 ops) = Except.ok p →
        1 ≤ p.steps.length ∧ p.steps.length ≤ 10) := by
  refine ⟨fun steps fresh hlen => ?_, fun name => rfl, ?_⟩
  · simp only [addStep]
    rw [if_pos (by omega)]
  · intro s0 ops name p h0 hok
    have hlen : (applyOps s0 ops).length ≤ 10 := applyOps_length_le s0 ops h0
    simp only [submit] at hok
    by_cases hz : (applyOps s0 ops).length = 0
    · rw [if_pos hz] at hok
      cases hok
    · rw [if_neg hz] at hok
      rcases hc : instrCheck (applyOps s0 ops) 0 with _ | e
      · rw [hc] at hok
        have hp : p.steps = applyOps s0 ops := by
          cases hok
          rfl
        rw [hp]
        refine ⟨by omega, hlen⟩
      · rw [hc] at hok
        cases hok

theorem workflow_step_count_bounds_witness :
    addStep (List.replicate 10 (⟨"a", AgentKind.research, "r", []⟩ : Step))
        ⟨"k", AgentKind.outreach, "o", []⟩ =
      List.replicate 10 (⟨"a", AgentKind.research, "r", []⟩ : Step)
    ∧ (1 ≤ (CreatePayload.mk "W" [⟨"a", AgentKind.research, "r", []⟩]
          defaultSchema).steps.length
       ∧ (CreatePayload.mk "W" [⟨"a", AgentKind.research, "r", []⟩]
          defaultSchema).steps.length ≤ 10) := by
  constructor
  · exact workflow_step_count_bounds.1 _ _ (by simp)
  · exact workflow_step_count_bounds.2.2 [⟨"a", AgentKind.research, "r", []⟩]
      [] "W" ⟨"W", [⟨"a", AgentKind.research, "r", []⟩], defaultSchema⟩
      (by simp) (by rfl)

/-- C9: an empty or whitespace-only `lead_email` value makes RunModal's
`start` fail with exactly the error "Contact email is required" and
send no run-creation request, whatever the workflow's schema says
(even when it does not declare or does not require `lead_email`); the
guard runs before the schema-driven required-field validation, which is
why this precise message wins. -/
theorem leadEmail_guard_first (workflowId : String)
    (schema : List InputField) (values : List (String × String))
    (h : trimVal values "lead_email" = "") :
    start workflowId schema values =
      StartOutcome.rejected "Contact email is required" := by
  simp [start, startValidate, h]

theorem leadEmail_guard_first_witness :
    trimVal [("company", "Globex Corporation"), ("lead_email", "  ")]
        "lead_email" = ""
    ∧ start "wf1"
        [⟨"company", "Company name", Option.some "text", true⟩]
        [("company", "Globex Corporation"), ("lead_email", "  ")] =
      StartOutcome.rejected "Contact email is required" :=
  ⟨by decide, leadEmail_guard_first _ _ _ (by decide)⟩

lemma firstFieldError_isSome_of_blank (values : List (String × String)) :
    ∀ (l : List InputField) (f : InputField), f ∈ l →
      trimVal values f.name = "" → (firstFieldError values l).isSome := by
  intro l
  induction l with
  | nil =>
    intro f hf
    cases hf
  | cons g rest ih =>
    intro f hf hblank
    rcases hfe : fieldError values g with _ | e
    · rcases List.mem_cons.mp hf with hfg | hfr
      · subst hfg
        simp [fieldError, hblank] at hfe
      · simp only [firstFieldError, hfe]
        exact ih f hfr hblank
    · simp [firstFieldError, hfe]

/-- C6: when any field the schema marks required has a missing or blank
value, RunModal's `start` rejects with a validation error and never
issues the run-creation request, so no run id is created and no events
are emitted. -/
theorem required_blank_rejected (workflowId : String)
    (schema : List InputField) (values : List (String × String))
    (f : InputField) (hf : f ∈ schema) (hreq : f.required = true)
    (hblank : trimVal values f.name = "") :
    ∃ msg, start workflowId schema values = StartOutcome.rejected msg := by
  by_cases hle : trimVal values "lead_email" = ""
  · exact ⟨"Contact email is required",
      leadEmail_guard_first workflowId schema values hle⟩
  · have hmem : f ∈ schema.filter (fun g => g.required) :=
      List.mem_filter.mpr ⟨hf, by simp [hreq]⟩
    have hsome :=
      firstFieldError_isSome_of_blank values
        (schema.filter (fun g => g.required)) f hmem hblank
    rcases hms : firstFieldError values (schema.filter (fun g => g.required))
      with _ | msg
    · rw [hms] at hsome
      cases hsome
    · exact ⟨msg, by simp [start, startValidate, hle, hms]⟩

theorem required_blank_rejected_witness :
    ∃ msg, start "wf1"
        [⟨"company", "Company name", Option.some "text", true⟩,
         ⟨"lead_email", "Contact email", Option.some "email", true⟩]
        [("company", "   "), ("lead_email", "ceo@globex.com")] =
      StartOutcome.rejected msg :=
  required_blank_rejected "wf1" _ _
    ⟨"company", "Company name", Option.some "text", true⟩
    (by decide) rfl (by decide)

/-- C2: after a qualify step the Quality Gate stops with `disqualified`
exactly when the decision is "no", or "maybe" with a score strictly
below `minQualifyScore`; in every other case — "yes", or "maybe" at or
above the threshold, including exactly at it — it continues: the
threshold is an inclusive lower bound. -/
theorem qualify_gate_policy (th : Thresholds) (d : QualificationDecision) :
    (qualityGate th (Metadata.qualifyMeta d) =
        GateResult.stop StopReason.disqualified ↔
      (d.decision = QDecision.no ∨
        (d.decision = QDecision.maybe ∧ d.score < th.minQualifyScore)))
    ∧ (qualityGate th (Metadata.qualifyMeta d) = GateResult.cont ↔
      ¬(d.decision = QDecision.no ∨
        (d.decision = QDecision.maybe ∧ d.score < th.minQualifyScore)))
    ∧ (d.decision = QDecision.maybe → d.score = th.minQualifyScore →
        qualityGate th (Metadata.qualifyMeta d) = GateResult.cont) := by
  obtain ⟨score, dec, conf, cm, tc, rs⟩ := d
  cases dec with
  | yes => simp [qualityGate]
  | no => simp [qualityGate]
  | maybe =>
    by_cases hs : score < th.minQualifyScore
    · refine ⟨by simp [qualityGate, hs], by simp [qualityGate, hs], ?_⟩
      intro _ heq
      simp only at heq
      omega
    · refine ⟨by simp [qualityGate, hs], by simp [qualityGate, hs], ?_⟩
      intro _ _
      simp [qualityGate, hs]

theorem qualify_gate_policy_witness :
    qualityGate ⟨60, 2, 50⟩
        (Metadata.qualifyMeta ⟨50, QDecision.maybe, "medium", 3, 5, []⟩) =
      GateResult.cont
    ∧ qualityGate ⟨60, 2, 50⟩
        (Metadata.qualifyMeta ⟨49, QDecision.maybe, "medium", 3, 5, []⟩) =
      GateResult.stop StopReason.disqualified :=
  ⟨(qualify_gate_policy ⟨60, 2, 50⟩ _).2.2 rfl rfl,
   (qualify_gate_policy ⟨60, 2, 50⟩ _).1.mpr (Or.inr ⟨rfl, by decide⟩)⟩

lemma resolve_error_cases (req : String → Bool)
    (inputs : List (String × String)) :
    ∀ (t : List TemplatePart) (n : String),
      resolve req inputs t = Except.error n →
      TemplatePart.var n ∈ t ∧ inputs.lookup n = Option.none ∧
        req n = true := by
  intro t
  induction t with
  | nil =>
    intro n h
    cases h
  | cons part rest ih =>
    intro n h
    cases part with
    | lit s =>
      rcases hr : resolve req inputs rest with m | r
      · simp only [resolve, hr, Except.map] at h
        cases h
        have := ih n hr
        exact ⟨List.mem_cons_of_mem _ this.1, this.2.1, this.2.2⟩
      · simp only [resolve, hr, Except.map] at h
        cases h
    | var m =>
      rcases hl : inputs.lookup m with _ | v
      · by_cases hreq : req m = true
        · simp only [resolve, hl, if_pos hreq] at h
          cases h
          exact ⟨List.mem_cons_self _ _, hl, hreq⟩
        · rcases hr : resolve req inputs rest with m2 | r
          · simp only [resolve, hl, if_neg hreq, hr, Except.map] at h
            cases h
            have := ih n hr
            exact ⟨List.mem_cons_of_mem _ this.1, this.2.1, this.2.2⟩
          · simp only [resolve, hl, if_neg hreq, hr, Except.map] at h
            cases h
      · rcases hr : resolve req inputs rest with m2 | r
        · simp only [resolve, hl, hr, Except.map] at h
          cases h
          have := ih n hr
          exact ⟨List.mem_cons_of_mem _ this.1, this.2.1, this.2.2⟩
        · simp only [resolve, hl, hr, Except.map] at h
          cases h

lemma resolve_ok_mem (req : String → Bool)
    (inputs : List (String × String)) :
    ∀ (t : List TemplatePart) (s : String) (n : String),
      resolve req inputs t = Except.ok s → TemplatePart.var n ∈ t →
      req n = true → (inputs.lookup n).isSome := by
  intro t
  induction t with
  | nil =>
    intro s n _ hmem
    cases hmem
  | cons part rest ih =>
    intro s n hok hmem hreq
    cases part with
    | lit str =>
      rcases hr : resolve req inputs rest with m | r
      · simp only [resolve, hr, Except.map] at hok
        cases hok
      · rcases List.mem_cons.mp hmem with heq | hmemr
        · cases heq
        · exact ih r n hr hmemr hreq
    | var m =>
      rcases List.mem_cons.mp hmem with heq | hmemr
      · cases heq
        rcases hl : inputs.lookup n with _ | v
        · by_cases hrq : req n = true
          · simp only [resolve, hl, if_pos hrq] at hok
            cases hok
          · exact absurd hreq hrq
        · simp [hl]
      · rcases hl : inputs.lookup m with _ | v
        · by_cases hrq : req m = true
          · simp only [resolve, hl, if_pos hrq] at hok
            cases hok
          · rcases hr : resolve req inputs rest with m2 | r
            · simp only [resolve, hl, if_neg hrq, hr, Except.map] at hok
              cases hok
            · exact ih r n hr hmemr hreq
        · rcases hr : resolve req inputs rest with m2 | r
          · simp only [resolve, hl, hr, Except.map] at hok
            cases hok
          · exact ih r n hr hmemr hreq

/-- C7: `resolve` fails with `MissingVariable(name)` (the error carries
the variable's name) exactly when some referenced placeholder has no
entry in the inputs and is marked required; an unresolved optional
variable renders as the empty string; and when resolution of a step's
template fails, the run takes status `error` with a descriptive
message and emits no `step:output` event for that step.  (`resolve` is
a pure Lean function, so determinism and freedom from side effects
hold by construction.) -/
theorem template_resolution_spec (req : String → Bool)
    (inputs : List (String × String)) (t : List TemplatePart) :
    (∀ n, resolve req inputs t = Except.error n →
      TemplatePart.var n ∈ t ∧ inputs.lookup n = Option.none ∧
        req n = true)
    ∧ ((∃ n, TemplatePart.var n ∈ t ∧ inputs.lookup n = Option.none ∧
        req n = true) → ∃ n, resolve req inputs t = Except.error n)
    ∧ (∀ n rest, inputs.lookup n = Option.none → req n = false →
        resolve req inputs (TemplatePart.var n :: rest) =
          (resolve req inputs rest).map (fun r => "" ++ r))
    ∧ (∀ (th : Thresholds) (gw : Nat → Except String AgentOutput)
        (i : Nat) (s : StepDef) (rest : List StepDef) (n : String),
        resolve req inputs s.template = Except.error n →
        (runLoop th req inputs gw i (s :: rest)).1 = RunStatus.error
        ∧ (runLoop th req inputs gw i (s :: rest)).2 =
          [Event.stepStart i s.agent,
           Event.error ("Missing variable: " ++ n)]) := by
  refine ⟨resolve_error_cases req inputs t, ?_, ?_, ?_⟩
  · rintro ⟨n, hmem, hnone, hreq⟩
    rcases hres : resolve req inputs t with m | s
    · exact ⟨m, rfl⟩
    · have := resolve_ok_mem req inputs t s n hres hmem hreq
      rw [hnone] at this
      cases this
  · intro n rest hnone hreq
    have hneg : ¬(req n = true) := by
      rw [hreq]
      decide
    simp only [resolve, hnone, if_neg hneg]
  · intro th gw i s rest n hres
    constructor
    · simp only [runLoop, hres]
    · simp only [runLoop, hres]

theorem template_resolution_spec_witness :
    (TemplatePart.var "company" ∈
        [TemplatePart.lit "Research ", TemplatePart.var "company"]
      ∧ List.lookup "company" ([] : List (String × String)) = Option.none
      ∧ (fun n => n == "company") "company" = true)
    ∧ resolve (fun _ => false) [] [TemplatePart.var "website"] =
        Except.ok ""
    ∧ (runLoop ⟨60, 2, 50⟩ (fun n => n == "company") []
        (fun _ => Except.ok ⟨"txt", Metadata.noMeta⟩) 0
        [⟨AgentKind.research, [TemplatePart.var "company"]⟩]).1 =
      RunStatus.error := by
  refine ⟨?_, ?_, ?_⟩
  · exact (template_resolution_spec (fun n => n == "company") []
      [TemplatePart.lit "Research ", TemplatePart.var "company"]).1
      "company" (by rfl)
  · have := (template_resolution_spec (fun _ => false) []
      [TemplatePart.var "website"]).2.2.1 "website" [] rfl rfl
    rw [this]
    rfl
  · exact ((template_resolution_spec (fun n => n == "company") []
      [TemplatePart.var "company"]).2.2.2 ⟨60, 2, 50⟩
      (fun _ => Except.ok ⟨"txt", Metadata.noMeta⟩) 0
      ⟨AgentKind.research, [TemplatePart.var "company"]⟩ [] "company"
      (by rfl)).1

/-- A status from which no further transition occurs (glossary). -/
def isTerminalStatus : RunStatus → Bool
  | RunStatus.success => true
  | RunStatus.stopped_low_quality => true
  | RunStatus.disqualified => true
  | RunStatus.error => true
  | RunStatus.pending => false
  | RunStatus.running => false

/-- The explanatory terminal events: `finished` and `error` (§7). -/
def isTerminalEvent : Event → Bool
  | Event.finished _ _ => true
  | Event.error _ => true
  | _ => false

lemma metaEvent_not_terminal (m : Metadata) (x : Event)
    (h : x ∈ metaEvent m) : isTerminalEvent x = false := by
  cases m with
  | research q =>
    simp only [metaEvent, List.mem_singleton] at h
    subst h
    rfl
  | qualifyMeta d =>
    simp only [metaEvent, List.mem_singleton] at h
    subst h
    rfl
  | noMeta =>
    cases h

lemma runLoop_terminal (th : Thresholds) (req : String → Bool)
    (inputs : List (String × String))
    (gw : Nat → Except String AgentOutput) :
    ∀ (steps : List StepDef) (i : Nat),
      isTerminalStatus (runLoop th req inputs gw i steps).1 = true
      ∧ ∃ pre e, (runLoop th req inputs gw i steps).2 = pre ++ [e]
          ∧ isTerminalEvent e = true
          ∧ ∀ x ∈ pre, isTerminalEvent x = false := by
  intro steps
  induction steps with
  | nil =>
    intro i
    exact ⟨rfl, [], Event.finished RunStatus.success Option.none,
      rfl, rfl, by simp⟩
  | cons s rest ih =>
    intro i
    rcases hres : resolve req inputs s.template with n | instr
    · refine ⟨by simp only [runLoop, hres]; rfl,
        [Event.stepStart i s.agent],
        Event.error ("Missing variable: " ++ n), ?_, rfl, ?_⟩
      · simp only [runLoop, hres]
        rfl
      · intro x hx
        simp only [List.mem_singleton] at hx
        subst hx
        rfl
    · rcases hgw : gw i with msg | out
      · refine ⟨by simp only [runLoop, hres, hgw]; rfl,
          [Event.stepStart i s.agent], Event.error msg, ?_, rfl, ?_⟩
        · simp only [runLoop, hres, hgw]
          rfl
        · intro x hx
          simp only [List.mem_singleton] at hx
          subst hx
          rfl
      · rcases hg : qualityGate th out.metadata with _ | r
        · obtain ⟨hstat, pre, e, hsplit, hterm, hpre⟩ := ih (i + 1)
          refine ⟨?_, Event.stepStart i s.agent ::
              Event.stepOutput i s.agent (jsTake out.text 180) out.text ::
              metaEvent out.metadata ++ Event.stepEnd i :: pre, e, ?_, hterm, ?_⟩
          · simp only [runLoop, hres, hgw, hg]
            exact hstat
          · simp only [runLoop, hres, hgw, hg, hsplit]
            simp
          · intro x hx
            simp only [List.mem_cons, List.mem_append] at hx
            rcases hx with (rfl | rfl | hm) | (rfl | h4)
            · rfl
            · rfl
            · exact metaEvent_not_terminal out.metadata x hm
            · rfl
            · exact hpre x h4
        · refine ⟨?_, Event.stepStart i s.agent ::
              Event.stepOutput i s.agent (jsTake out.text 180) out.text ::
              metaEvent out.metadata,
            Event.finished (stopStatus r) (Option.some r), ?_, ?_, ?_⟩
          · simp only [runLoop, hres, hgw, hg]
            cases r <;> rfl
          · simp only [runLoop, hres, hgw, hg]
          · rfl
          · intro x hx
            simp only [List.mem_cons] at hx
            rcases hx with rfl | rfl | hm
            · rfl
            · rfl
            · exact metaEvent_not_terminal out.metadata x hm

/-- C5: every run reaches a terminal status, and its event stream ends
with exactly one explanatory terminal event (`finished` or `error`):
that event is the last one appended and no earlier event of the run is
terminal. -/
theorem run_terminal_event_spec (th : Thresholds) (req : String → Bool)
    (inputs : List (String × String))
    (gw : Nat → Except String AgentOutput) (wfName : String)
    (steps : List StepDef) :
    isTerminalStatus (runWorkflow th req inputs gw wfName steps).1 = true
    ∧ ∃ pre e,
        (runWorkflow th req inputs gw wfName steps).2 = pre ++ [e]
        ∧ isTerminalEvent e = true
        ∧ ∀ x ∈ pre, isTerminalEvent x = false := by
  obtain ⟨hstat, pre, e, hsplit, hterm, hpre⟩ :=
    runLoop_terminal th req inputs gw steps 0
  refine ⟨hstat, Event.started wfName :: pre, e, ?_, hterm, ?_⟩
  · simp only [runWorkflow, hsplit]
    rfl
  · intro x hx
    rcases List.mem_cons.mp hx with h1 | h2
    · subst h1
      rfl
    · exact hpre x h2

theorem run_terminal_event_spec_witness :
    isTerminalStatus (runWorkflow ⟨60, 2, 50⟩ (fun _ => false) []
        (fun _ => Except.ok ⟨"draft", Metadata.noMeta⟩) "Autopilot"
        [⟨AgentKind.outreach, []⟩]).1 = true :=
  (run_terminal_event_spec ⟨60, 2, 50⟩ (fun _ => false) []
    (fun _ => Except.ok ⟨"draft", Metadata.noMeta⟩) "Autopilot"
    [⟨AgentKind.outreach, []⟩]).1

lemma runLoop_research_stop (th : Thresholds) (req : String → Bool)
    (inputs : List (String × String))
    (gw : Nat → Except String AgentOutput) (q : QualityScore)
    (hfail : q.confidence < th.minConfidence ∨
      q.totalCredibleSources < th.minCredibleSources) :
    ∀ (steps : List StepDef) (i : Nat),
      Event.researchQuality q ∈ (runLoop th req inputs gw i steps).2 →
      (runLoop th req inputs gw i steps).1 = RunStatus.stopped_low_quality
      ∧ ∃ pre, (runLoop th req inputs gw i steps).2 =
          pre ++ [Event.researchQuality q,
            Event.finished RunStatus.stopped_low_quality
              (Option.some StopReason.insufficient_evidence)] := by
  intro steps
  induction steps with
  | nil =>
    intro i hmem
    simp [runLoop] at hmem
  | cons s rest ih =>
    intro i hmem
    rcases hres : resolve req inputs s.template with n | instr
    · simp [runLoop, hres] at hmem
    · rcases hgw : gw i with msg | out
      · simp [runLoop, hres, hgw] at hmem
      · rcases hm : out.metadata with q2 | d | _
        · by_cases hc : q2.confidence < th.minConfidence ∨
              q2.totalCredibleSources < th.minCredibleSources
          · have hg : qualityGate th (Metadata.research q2) =
                GateResult.stop StopReason.insufficient_evidence := by
              simp [qualityGate, hc]
            simp only [runLoop, hres, hgw, hm, hg, metaEvent,
              stopStatus] at hmem ⊢
            simp only [List.cons_append, List.nil_append, List.mem_cons,
              List.mem_singleton] at hmem
            rcases hmem with h1 | h2 | h3 | h4 | h5
            · cases h1
            · cases h2
            · have hq : q = q2 := by
                injection h3
              subst hq
              refine ⟨trivial, [Event.stepStart i s.agent,
                Event.stepOutput i s.agent (jsTake out.text 180) out.text],
                ?_⟩
              simp
            · cases h4
            · cases h5
          · have hg : qualityGate th (Metadata.research q2) =
                GateResult.cont := by
              simp [qualityGate, hc]
            simp only [runLoop, hres, hgw, hm, hg, metaEvent] at hmem ⊢
            simp only [List.cons_append, List.nil_append, List.mem_cons] at hmem
            rcases hmem with h1 | h2 | h3 | h4 | h5
            · cases h1
            · cases h2
            · have hq : q = q2 := by
                injection h3
              subst hq
              exact absurd hfail hc
            · cases h4
            · obtain ⟨hst, pre, hsplit⟩ := ih (i + 1) h5
              refine ⟨hst, Event.stepStart i s.agent ::
                Event.stepOutput i s.agent (jsTake out.text 180) out.text ::
                Event.researchQuality q2 :: Event.stepEnd i :: pre, ?_⟩
              rw [hsplit]
              simp
        · rcases hgq : qualityGate th (Metadata.qualifyMeta d) with _ | r
          · simp only [runLoop, hres, hgw, hm, hgq, metaEvent] at hmem ⊢
            simp only [List.cons_append, List.nil_append, List.mem_cons] at hmem
            rcases hmem with h1 | h2 | h3 | h4 | h5
            · cases h1
            · cases h2
            · cases h3
            · cases h4
            · obtain ⟨hst, pre, hsplit⟩ := ih (i + 1) h5
              refine ⟨hst, Event.stepStart i s.agent ::
                Event.stepOutput i s.agent (jsTake out.text 180) out.text ::
                Event.qualifyAssessed d :: Event.stepEnd i :: pre, ?_⟩
              rw [hsplit]
              simp
          · simp [runLoop, hres, hgw, hm, hgq, metaEvent] at hmem
        · simp only [runLoop, hres, hgw, hm, metaEvent, qualityGate] at hmem ⊢
          simp only [List.cons_append, List.nil_append, List.mem_cons] at hmem
          rcases hmem with h1 | h2 | h3 | h4
          · cases h1
          · cases h2
          · cases h3
          · obtain ⟨hst, pre, hsplit⟩ := ih (i + 1) h4
            refine ⟨hst, Event.stepStart i s.agent ::
              Event.stepOutput i s.agent (jsTake out.text 180) out.text ::
              Event.stepEnd i :: pre, ?_⟩
            rw [hsplit]
            simp

/-- C1: after a research step, the Quality Gate stops with
`insufficient_evidence` exactly when `confidence < minConfidence` or
`totalCredibleSources < minCredibleSources`, and continues otherwise;
at run level, whenever a run's research step reports a QualityScore
below either threshold, the run ends with terminal status
`stopped_low_quality` and nothing follows the assessment event except
the `finished` event carrying reason `insufficient_evidence` — in
particular no qualify or outreach step starts after it. -/
theorem research_gate_policy (th : Thresholds) (q : QualityScore) :
    (qualityGate th (Metadata.research q) =
        GateResult.stop StopReason.insufficient_evidence ↔
      (q.confidence < th.minConfidence ∨
        q.totalCredibleSources < th.minCredibleSources))
    ∧ (qualityGate th (Metadata.research q) = GateResult.cont ↔
      ¬(q.confidence < th.minConfidence ∨
        q.totalCredibleSources < th.minCredibleSources))
    ∧ (∀ (req : String → Bool) (inputs : List (String × String))
        (gw : Nat → Except String AgentOutput) (wfName : String)
        (steps : List StepDef),
        (q.confidence < th.minConfidence ∨
          q.totalCredibleSources < th.minCredibleSources) →
        Event.researchQuality q ∈
          (runWorkflow th req inputs gw wfName steps).2 →
        (runWorkflow th req inputs gw wfName steps).1 =
          RunStatus.stopped_low_quality
        ∧ ∃ pre, (runWorkflow th req inputs gw wfName steps).2 =
            pre ++ [Event.researchQuality q,
              Event.finished RunStatus.stopped_low_quality
                (Option.some StopReason.insufficient_evidence)]) := by
  refine ⟨?_, ?_, ?_⟩
  · by_cases hc : q.confidence < th.minConfidence ∨
        q.totalCredibleSources < th.minCredibleSources
    · simp [qualityGate, hc]
    · simp [qualityGate, hc]
  · by_cases hc : q.confidence < th.minConfidence ∨
        q.totalCredibleSources < th.minCredibleSources
    · simp [qualityGate, hc]
    · simp [qualityGate, hc]
  · intro req inputs gw wfName steps hfail hmem
    simp only [runWorkflow, List.mem_cons] at hmem
    rcases hmem with h1 | h2
    · cases h1
    · obtain ⟨hst, pre, hsplit⟩ :=
        runLoop_research_stop th req inputs gw q hfail steps 0 h2
      refine ⟨hst, Event.started wfName :: pre, ?_⟩
      simp only [runWorkflow, hsplit]
      rfl

theorem research_gate_policy_witness :
    qualityGate ⟨60, 2, 50⟩
        (Metadata.research ⟨40, QualityTier.low, 1, 3, 0⟩) =
      GateResult.stop StopReason.insufficient_evidence
    ∧ (runWorkflow ⟨60, 2, 50⟩ (fun _ => false) []
        (fun _ => Except.ok ⟨"research text",
          Metadata.research ⟨40, QualityTier.low, 1, 3, 0⟩⟩)
        "Autopilot"
        [⟨AgentKind.research, []⟩, ⟨AgentKind.qualify, []⟩,
         ⟨AgentKind.outreach, []⟩]).1 = RunStatus.stopped_low_quality := by
  constructor
  · exact (research_gate_policy ⟨60, 2, 50⟩ _).1.mpr (Or.inl (by decide))
  · exact ((research_gate_policy ⟨60, 2, 50⟩
      ⟨40, QualityTier.low, 1, 3, 0⟩).2.2 (fun _ => false) []
      (fun _ => Except.ok ⟨"research text",
        Metadata.research ⟨40, QualityTier.low, 1, 3, 0⟩⟩)
      "Autopilot"
      [⟨AgentKind.research, []⟩, ⟨AgentKind.qualify, []⟩,
       ⟨AgentKind.outreach, []⟩]
      (Or.inl (by decide)) (by decide)).1

lemma filter_ge_enumFrom {α : Type _} :
    ∀ (l : List α) (k n : Nat),
      (List.enumFrom k l).filter (fun p => n ≤ p.1) =
        (List.enumFrom k l).drop (n - k) := by
  intro l
  induction l with
  | nil =>
    intro k n
    simp
  | cons a l ih =>
    intro k n
    simp only [List.enumFrom_cons]
    by_cases hnk : n ≤ k
    · rw [List.filter_cons]
      have hnk0 : n - k = 0 := by omega
      rw [hnk0, List.drop_zero]
      have hrest := ih (k + 1) n
      rw [Nat.sub_eq_zero_of_le (by omega), List.drop_zero] at hrest
      have hdt : decide (n ≤ k) = true := by simp [hnk]
      simp only [hdt]
      rw [hrest]
      simp
    · rw [List.filter_cons]
      have hd : decide (n ≤ k) = false := by
        simp
        omega
      simp only [hd]
      have hrest := ih (k + 1) n
      rw [hrest]
      have hnk1 : n - k = (n - (k + 1)) + 1 := by omega
      rw [hnk1, List.drop_succ_cons]
      simp

lemma dropRange' : ∀ (n m s : Nat),
    (List.range' s n).drop m = List.range' (s + m) (n - m) := by
  intro n
  induction n with
  | zero =>
    intro m s
    simp [List.range']
  | succ n ih =>
    intro m s
    cases m with
    | zero => simp
    | succ m =>
      rw [List.range'_succ, List.drop_succ_cons, ih m (s + 1)]
      have h1 : s + 1 + m = s + (m + 1) := by omega
      have h2 : n - m = n + 1 - (m + 1) := by omega
      rw [h1, h2]

lemma replayFrom_eq_drop (log : RunLog) (n : Nat) :
    replayFrom log n = log.events.enum.drop n := by
  have h := filter_ge_enumFrom log.events 0 n
  rw [Nat.sub_zero] at h
  exact h

lemma replay_seqs (log : RunLog) (n : Nat) :
    (replayFrom log n).map Prod.fst =
      List.range' n (log.events.length - n) := by
  rw [replayFrom_eq_drop, List.map_drop]
  have h : log.events.enum.map Prod.fst = List.range' 0 log.events.length :=
    List.enumFrom_map_fst 0 log.events
  rw [h, dropRange']
  simp

lemma publishAll_events :
    ∀ (es : List Event) (log : RunLog),
      (publishAll log es).events = log.events ++ es := by
  intro es
  induction es with
  | nil =>
    intro log
    simp [publishAll]
  | cons e rest ih =>
    intro log
    simp only [publishAll, appendEvent]
    rw [ih]
    simp

lemma liveDelivery_enumFrom :
    ∀ (es : List Event) (log : RunLog),
      liveDelivery log es = List.enumFrom log.events.length es := by
  intro es
  induction es with
  | nil =>
    intro log
    rfl
  | cons e rest ih =>
    intro log
    simp only [liveDelivery, appendEvent]
    rw [ih]
    simp [List.enumFrom_cons]

/-- C3: the Event Publisher's log is append-only (appending stores the
old events untouched, with the new one after them), `append` assigns
the next sequence number for the run, starting at 0 on an empty log
and increasing by exactly one per append, and the sequence numbers any
subscriber observes from its requested offset are exactly the
consecutive run `fromSeq, fromSeq + 1, ...` — strictly increasing with
no gaps. -/
theorem event_sequence_spec (log : RunLog) (e e2 : Event) (fromSeq : Nat) :
    ((appendEvent log e).1.events = log.events ++ [e])
    ∧ ((appendEvent log e).2 = log.events.length)
    ∧ ((appendEvent emptyLog e).2 = 0)
    ∧ ((appendEvent (appendEvent log e).1 e2).2 = (appendEvent log e).2 + 1)
    ∧ ((replayFrom log fromSeq).map Prod.fst =
        List.range' fromSeq (log.events.length - fromSeq)) := by
  refine ⟨rfl, rfl, rfl, ?_, replay_seqs log fromSeq⟩
  simp [appendEvent]

/-- C4: a subscription from `fromSequence` delivers all stored events
with sequence at least `fromSequence`, in order, followed by every
subsequently appended event, with no gaps and no duplicates relative
to its starting point; replaying from 0 after the run completes yields
exactly the sequence a live subscriber observed; and a subscriber that
saw the first `s` deliveries and reconnects from sequence `s` loses
nothing. -/
theorem subscribe_replay_spec (log : RunLog) (es : List Event)
    (n s : Nat) :
    (replayFrom (publishAll emptyLog es) 0 = liveDelivery emptyLog es)
    ∧ (n ≤ log.events.length →
        replayFrom (publishAll log es) n =
          replayFrom log n ++ liveDelivery log es)
    ∧ ((liveDelivery emptyLog es).take s ++
        replayFrom (publishAll emptyLog es) s = liveDelivery emptyLog es) := by
  have hpub : (publishAll emptyLog es).events = es := by
    rw [publishAll_events]
    rfl
  have hlive : liveDelivery emptyLog es = es.enum := by
    rw [liveDelivery_enumFrom]
    rfl
  refine ⟨?_, ?_, ?_⟩
  · rw [replayFrom_eq_drop, hlive, hpub, List.drop_zero]
  · intro hn
    rw [replayFrom_eq_drop, replayFrom_eq_drop]
    rw [liveDelivery_enumFrom]
    have hev : (publishAll log es).events = log.events ++ es :=
      publishAll_events es log
    rw [hev]
    have henum : (log.events ++ es).enum =
        log.events.enum ++ List.enumFrom log.events.length es := by
      simpa [List.enum] using List.enumFrom_append log.events es 0
    rw [henum, List.drop_append_of_le_length (by simpa using hn)]
  · rw [replayFrom_eq_drop, hlive, hpub]
    exact List.take_append_drop s es.enum

theorem subscribe_replay_spec_witness :
    replayFrom (publishAll ⟨[Event.started "W"]⟩ [Event.stepEnd 0]) 1 =
      replayFrom ⟨[Event.started "W"]⟩ 1 ++
        liveDelivery ⟨[Event.started "W"]⟩ [Event.stepEnd 0] :=
  (subscribe_replay_spec ⟨[Event.started "W"]⟩ [Event.stepEnd 0] 1 0).2.1
    (by decide)

end AgentFlow
